import Mathlib

/-!
# Encounter tracker: broadcast hub and session command router

A shallow embedding of `internal/hub/hub.go` and of the `/ws/:code` handler of
`routes.go`, followed by the properties of the redaction, fan-out, registry
and command dispatch.

Conventions of the embedding

* A Go `map[K]V` is an association list `GoMap K V` with unique keys; `nil`
  and "key absent" are `none`.  Iteration (`range`) follows the list; Go
  leaves the order unspecified, and every theorem below holds for any order.
* `*Client` is an address (`ClientPtr`); the clients live in a heap indexed by
  address.  A buffered channel is its capacity and its buffered messages,
  oldest first.
* Go `int` is `Int`; the 64 bit range is explicit where a conversion can leave
  it (`getInt`).
* The packages `store` and `models` lie outside the embedded files: the record
  types are taken from the specification, the store is a parameter.
-/

set_option autoImplicit false

/-! ## Go maps -/

/-- Association-list model of a Go map. -/
abbrev GoMap (κ ν : Type) := List (κ × ν)

namespace GoMap

variable {κ ν : Type} [DecidableEq κ]

/-- Lookup `v, ok := m[k]`: `none` when the key is absent. -/
def get : GoMap κ ν → κ → Option ν
  | [], _ => none
  | (k', v) :: t, k => if k' = k then some v else get t k

/-- Assignment `m[k] = v`. -/
def set : GoMap κ ν → κ → ν → GoMap κ ν
  | [], k, v => [(k, v)]
  | (k', v') :: t, k, v => if k' = k then (k, v) :: t else (k', v') :: set t k v

/-- Builtin `delete(m, k)`. -/
def delete : GoMap κ ν → κ → GoMap κ ν
  | [], _ => []
  | (k', v) :: t, k => if k' = k then delete t k else (k', v) :: delete t k

/-- Builtin `len(m)`. -/
def len (m : GoMap κ ν) : Nat := m.length

/-- Keys in iteration order. -/
def keys (m : GoMap κ ν) : List κ := m.map Prod.fst

/-- Representation invariant: a Go map holds each key once. -/
def WF (m : GoMap κ ν) : Prop := (keys m).Nodup

instance (m : GoMap κ ν) : Decidable (WF m) := by
  unfold WF; infer_instance

end GoMap

/-! ## `internal/models` (record types) -/

namespace models

/-- Modelled from the spec: the entity kind of package `models` (the type
behind `models.Monster`), "kind (Player | Monster)". -/
inductive EntityType where
  | Player
  | Monster
  deriving DecidableEq, Repr

/-- Modelled from the spec: `models.Entity`, with the fields of the data model
section: identifier, display name, kind, current HP, max HP, initiative score,
tie-break bonus, tags, owner subscriber id.  The hub reads `Type`, and writes
`HP` and `MaxHP`; the field `Type` is spelled `Typ`. -/
structure Entity where
  ID : String
  Name : String
  Typ : EntityType
  HP : Int
  MaxHP : Int
  Initiative : Int
  Bonus : Int
  Tags : List String
  OwnerUID : String
  deriving DecidableEq, Repr

/-- Modelled from the spec: `models.Group`, the session: code, owner id,
ordered entities, round counter, turn index.  The hub reads `Code`, `Round`,
`TurnIndex`, `DMUID` and `Entities`. -/
structure Group where
  Code : String
  DMUID : String
  Entities : List Entity
  Round : Int
  TurnIndex : Int
  deriving DecidableEq, Repr

end models

/-! ## `internal/hub` -/

namespace hub

open models

/-- Address of a `Client` value (`*Client`). -/
abbrev ClientPtr := Nat

/-- The anonymous payload struct that `BroadcastState` builds. -/
structure Payload where
  Group : String
  Round : Int
  Turn : Int
  DMUID : String
  Entries : List Entity
  deriving DecidableEq, Repr

/-- Type `Outgoing`: a message sent to clients.  `Type` is spelled `Typ`. -/
structure Outgoing where
  Typ : String
  Data : Payload
  deriving DecidableEq, Repr

/-- A buffered channel of marshalled messages (`chan []byte`): capacity and
contents, oldest first.  A message is kept as the `Outgoing` value that
`json.Marshal` serialises. -/
structure Chan where
  cap : Nat
  buf : List Outgoing
  deriving DecidableEq, Repr

/-- Type `Client`: a connected WebSocket client (the transport handle `Conn` plays
no part in the hub and is left out). -/
structure Client where
  UID : String
  IsDM : Bool
  Group : String
  SendCh : Chan
  deriving DecidableEq, Repr

/-- Type `Hub`: group -> clients. -/
structure Hub where
  clients : GoMap String (GoMap ClientPtr Bool)
  deriving DecidableEq, Repr

/-- The clients, by address. -/
abbrev Heap := ClientPtr → Client

/-- Function `New` creates a hub with an empty registry. -/
def New : Hub := { clients := [] }

/-- Method `AddClient` registers a client to a group. -/
def AddClient (h : Hub) (group : String) (c : ClientPtr) : Hub :=
  match h.clients.get group with
  | none => { clients := h.clients.set group (GoMap.set [] c true) }
  | some m => { clients := h.clients.set group (m.set c true) }

/-- Method `RemoveClient` unregisters a client from a group. -/
def RemoveClient (h : Hub) (group : String) (c : ClientPtr) : Hub :=
  match h.clients.get group with
  | some m =>
    let m' := m.delete c
    if m'.len = 0 then { clients := h.clients.delete group }
    else { clients := h.clients.set group m' }
  | none => h

/-- The redaction loop of `BroadcastState`: a copy of the entities in which
every monster has `HP` and `MaxHP` set to zero. -/
def sanitize (es : List Entity) : List Entity :=
  es.map (fun e => if e.Typ = EntityType.Monster then { e with HP := 0, MaxHP := 0 } else e)

/-- The payload `BroadcastState` builds for client `c`. -/
def payloadFor (c : Client) (g : Group) : Payload :=
  { Group := g.Code, Round := g.Round, Turn := g.TurnIndex, DMUID := g.DMUID,
    Entries := if c.IsDM then g.Entities else sanitize g.Entities }

/-- The message `BroadcastState` builds for client `c`. -/
def stateMsg (c : Client) (g : Group) : Outgoing :=
  { Typ := "state", Data := payloadFor c g }

/-- The non-blocking send `select { case ch <- b: default: }`: the message is
buffered when there is room and dropped otherwise. -/
def trySend (ch : Chan) (b : Outgoing) : Chan :=
  if ch.buf.length < ch.cap then { ch with buf := ch.buf ++ [b] } else ch

/-- One iteration of the loop of `BroadcastState`, for the client at `c`. -/
def serveClient (g : Group) (heap : Heap) (c : ClientPtr) : Heap :=
  fun p => if p = c then { heap c with SendCh := trySend (heap c).SendCh (stateMsg (heap c) g) }
    else heap p

/-- The loop of `BroadcastState` over the clients in iteration order. -/
def broadcastLoop (g : Group) (cs : List ClientPtr) (heap : Heap) : Heap :=
  cs.foldl (serveClient g) heap

/-- The clients `BroadcastState` ranges over: `h.clients[group]`, nothing for
an unregistered group. -/
def clientsOf (h : Hub) (group : String) : List ClientPtr :=
  match h.clients.get group with
  | some m => m.keys
  | none => []

/-- Method `BroadcastState` sends the current group state to all clients in the
group. -/
def BroadcastState (h : Hub) (group : String) (g : Group) (heap : Heap) : Heap :=
  broadcastLoop g (clientsOf h group) heap

/-- A registry operation. -/
inductive HubOp where
  | add (group : String) (c : ClientPtr)
  | remove (group : String) (c : ClientPtr)
  deriving DecidableEq, Repr

/-- Effect of one registry operation. -/
def HubOp.apply (h : Hub) : HubOp → Hub
  | .add group c => AddClient h group c
  | .remove group c => RemoveClient h group c

/-- The hub reached from `New` by a sequence of registry operations. -/
def reach (ops : List HubOp) : Hub := ops.foldl HubOp.apply New

/-- Representation invariant of the registry: both map levels hold each key
once. -/
def Hub.WF (h : Hub) : Prop :=
  GoMap.WF h.clients ∧ ∀ p ∈ h.clients, GoMap.WF p.2

instance (h : Hub) : Decidable h.WF := by
  unfold Hub.WF; infer_instance

/-- No entry of the registry is an empty client set. -/
def NoEmptySet (h : Hub) : Prop := ∀ p ∈ h.clients, p.2.len ≠ 0

/-- A message that shows no monster health: every Monster entry has `HP` and
`MaxHP` zero. -/
def Redacted (m : Outgoing) : Prop :=
  ∀ e ∈ m.Data.Entries, e.Typ = EntityType.Monster → e.HP = 0 ∧ e.MaxHP = 0

/-- A client that is not the owner and whose queue holds redacted messages
only. -/
def PlayerView (c : Client) : Prop :=
  c.IsDM = false ∧ ∀ m ∈ c.SendCh.buf, Redacted m

end hub

/-! ## `routes.go`: field extraction -/

namespace routes

open models hub

/-- A `float64`: a finite value `(-1)^neg * mant * 2^exp`, an infinity or NaN. -/
inductive Float64 where
  | finite (neg : Bool) (mant : Nat) (exp : Int)
  | inf (neg : Bool)
  | nan
  deriving DecidableEq, Repr

/-- The value with its fraction discarded (truncation towards zero); `none` for
an infinity or NaN. -/
def Float64.trunc : Float64 → Option Int
  | .finite neg mant exp =>
    let mag : Nat := if 0 ≤ exp then mant * 2 ^ exp.toNat else mant / 2 ^ (-exp).toNat
    some (if neg then -(mag : Int) else (mag : Int))
  | .inf _ => none
  | .nan => none

/-- The integer a `float64` is equal to, when it is integer-valued. -/
def Float64.toInt? : Float64 → Option Int
  | .finite neg mant exp =>
    if 0 ≤ exp then some (if neg then -((mant * 2 ^ exp.toNat : Nat) : Int) else ((mant * 2 ^ exp.toNat : Nat) : Int))
    else if mant % 2 ^ (-exp).toNat = 0 then
      some (if neg then -((mant / 2 ^ (-exp).toNat : Nat) : Int) else ((mant / 2 ^ (-exp).toNat : Nat) : Int))
    else none
  | .inf _ => none
  | .nan => none

/-- Least value of Go `int` (64 bit targets). -/
def minInt : Int := -(2 ^ 63)

/-- Greatest value of Go `int` (64 bit targets). -/
def maxInt : Int := 2 ^ 63 - 1

/-- Reduction of an integer into the range of `int`. -/
def wrapInt (z : Int) : Int := (z + 2 ^ 63) % 2 ^ 64 - 2 ^ 63

/-- The conversion `int(t)` of a `float64`: the fraction is discarded; when
`int` cannot represent the result the conversion still succeeds, with a value
that depends on the target, here `oor t` reduced into the range of `int`. -/
def intOfFloat (oor : Float64 → Int) (t : Float64) : Int :=
  match t.trunc with
  | some z => if minInt ≤ z ∧ z ≤ maxInt then z else wrapInt (oor t)
  | none => wrapInt (oor t)

/-- A dynamic value (`interface{}`) as found in a decoded message:
`nil`, `bool`, `float64`, `string`, `[]interface{}`, `map[string]interface{}`,
and `int`, which `getInt` also accepts. -/
inductive Value where
  | null
  | bool (b : Bool)
  | float64 (t : Float64)
  | int (t : Int)
  | string (s : String)
  | slice (xs : List Value)
  | map (m : List (String × Value))

/-- A `map[string]interface{}`; `none` is the nil map. -/
abbrev Data := Option (GoMap String Value)

/-- The lookup `v, ok := m[k]`; a nil map has no keys. -/
def index (m : Data) (k : String) : Option Value :=
  match m with
  | none => none
  | some mm => mm.get k

/-- Function `getStr` extracts a string from a map. -/
def getStr (m : Data) (k : String) : String :=
  match index m k with
  | some (.string s) => s
  | _ => ""

/-- Function `getInt` extracts an integer from a map, handling different possible
types. -/
def getInt (oor : Float64 → Int) (m : Data) (k : String) : Int :=
  match index m k with
  | some (.float64 t) => intOfFloat oor t
  | some (.int t) => t
  | some (.string _) => 0
  | _ => 0

/-- The inner loop of `getStringSlice`: the strings among the elements. -/
def stringsOf : List Value → List String
  | [] => []
  | .string s :: xs => s :: stringsOf xs
  | _ :: xs => stringsOf xs

/-- Function `getStringSlice` extracts a slice of strings from a map. -/
def getStringSlice (m : Data) (k : String) : List String :=
  match index m k with
  | some (.slice arr) => stringsOf arr
  | _ => []

/-- White space as `unicode.IsSpace` defines it. -/
def isSpace (r : Char) : Bool :=
  let n := r.toNat
  n = 0x09 || n = 0x0A || n = 0x0B || n = 0x0C || n = 0x0D || n = 0x20 || n = 0x85 || n = 0xA0
    || n = 0x1680 || (0x2000 ≤ n && n ≤ 0x200A) || n = 0x2028 || n = 0x2029 || n = 0x202F
    || n = 0x205F || n = 0x3000

/-- Function `strings.TrimSpace`: the string without its leading and trailing white
space. -/
def TrimSpace (s : String) : String :=
  String.mk ((s.data.dropWhile isSpace).reverse.dropWhile isSpace).reverse

end routes

/-! ## `routes.go`: the `/ws/:code` handler -/

namespace routes

open models hub

/-- Type `Incoming`: a decoded message, `{"type": ..., "data": {...}}`.  `Type` is
spelled `Typ`. -/
structure Incoming where
  Typ : String
  Data : Data

/-- One result of `conn.ReadMessage()`: a transport error, or a payload
together with what `json.Unmarshal` makes of it (`none`: it returns an
error). -/
inductive Read where
  | err
  | data (decoded : Option Incoming)

/-- A call of a mutating method of the store, with the arguments in the order
`routes.go` passes them. -/
inductive StoreCall where
  | AddPlayer (code uid name : String) (init bonus : Int)
  | AddPlayerWithRoll (code uid name : String) (bonus : Int)
  | AddMonster (code uid name : String) (hp bonus init : Int)
  | DamageMonster (code uid id : String) (dmg : Int)
  | Reorder (code uid : String) (order : List String)
  | NextTurn (code : String)
  | ResetInitiative (code uid : String)
  | DeleteEntity (code uid entityID : String)
  | RenameEntity (code uid entityID newName : String)
  | EditEntityHP (code uid entityID : String) (currentHP maxHP : Int)
  | AddEntityTag (code uid entityID tag : String)
  | RemoveEntityTag (code uid entityID tag : String)
  deriving DecidableEq, Repr

/-- The store used by the handler.  Package `store` lies outside the embedded files:
the effect of its mutating methods on the store state and `GetGroup` are
parameters. -/
structure Store (σ : Type) where
  exec : StoreCall → σ → σ
  GetGroup : σ → String → Option Group

/-- What the handler does to its collaborators, in order. -/
inductive Event where
  | store (call : StoreCall)
  | getGroup (code : String)
  | addClient (code : String) (c : ClientPtr)
  | broadcast (code : String) (g : Group)
  | removeClient (code : String) (c : ClientPtr)
  | close
  deriving DecidableEq, Repr

/-- The globals `st` and `hb`, the clients, and the calls made so far. -/
structure Sys (σ : Type) where
  store : σ
  hub : Hub
  heap : Heap
  trace : List Event

/-- The `switch in.Type` of the reader loop: the store method the message
leads to, if any. -/
def command (oor : Float64 → Int) (code uid : String) (isDM : Bool) (msg : Incoming) :
    Option StoreCall :=
  if msg.Typ = "addPlayer" then
    let name := TrimSpace (getStr msg.Data "name")
    let init := getInt oor msg.Data "initiative"
    let bonus := getInt oor msg.Data "bonus"
    some (.AddPlayer code uid (if name = "" then "Player" else name) init bonus)
  else if msg.Typ = "addPlayerRoll" then
    let name := TrimSpace (getStr msg.Data "name")
    let bonus := getInt oor msg.Data "bonus"
    some (.AddPlayerWithRoll code uid (if name = "" then "Player" else name) bonus)
  else if msg.Typ = "addMonster" then
    if !isDM then none
    else
      let name := TrimSpace (getStr msg.Data "name")
      let hp := getInt oor msg.Data "hp"
      let init := getInt oor msg.Data "initiative"
      let bonus := getInt oor msg.Data "bonus"
      some (.AddMonster code uid (if name = "" then "Monster" else name) hp bonus init)
  else if msg.Typ = "damage" then
    if !isDM then none
    else
      let id := getStr msg.Data "id"
      let dmg := getInt oor msg.Data "dmg"
      some (.DamageMonster code uid id dmg)
  else if msg.Typ = "reorder" then
    if !isDM then none
    else
      let order := getStringSlice msg.Data "order"
      some (.Reorder code uid order)
  else if msg.Typ = "next" then
    some (.NextTurn code)
  else if msg.Typ = "reset" then
    if !isDM then none
    else some (.ResetInitiative code uid)
  else if msg.Typ = "deleteEntity" then
    if !isDM then none
    else
      let entityID := getStr msg.Data "id"
      some (.DeleteEntity code uid entityID)
  else if msg.Typ = "renameEntity" then
    if !isDM then none
    else
      let entityID := getStr msg.Data "id"
      let newName := TrimSpace (getStr msg.Data "name")
      if newName ≠ "" then some (.RenameEntity code uid entityID newName) else none
  else if msg.Typ = "editEntityHP" then
    if !isDM then none
    else
      let entityID := getStr msg.Data "id"
      let currentHP := getInt oor msg.Data "hp"
      let maxHP := getInt oor msg.Data "maxHp"
      some (.EditEntityHP code uid entityID currentHP maxHP)
  else if msg.Typ = "addEntityTag" then
    if !isDM then none
    else
      let entityID := getStr msg.Data "id"
      let tag := TrimSpace (getStr msg.Data "tag")
      if tag ≠ "" then some (.AddEntityTag code uid entityID tag) else none
  else if msg.Typ = "removeEntityTag" then
    if !isDM then none
    else
      let entityID := getStr msg.Data "id"
      let tag := TrimSpace (getStr msg.Data "tag")
      if tag ≠ "" then some (.RemoveEntityTag code uid entityID tag) else none
  else none

variable {σ : Type}

/-- The store call of the `switch`, when there is one. -/
def applyCommand (S : Store σ) (call : Option StoreCall) (s : Sys σ) : Sys σ :=
  match call with
  | some c => { s with store := S.exec c s.store, trace := s.trace ++ [Event.store c] }
  | none => s

/-- The end of the loop body: `if g2, ok := st.GetGroup(code); ok
{ hb.BroadcastState(code, g2) }`. -/
def refresh (S : Store σ) (code : String) (s : Sys σ) : Sys σ :=
  match S.GetGroup s.store code with
  | some g2 =>
    { s with heap := BroadcastState s.hub code g2 s.heap,
             trace := s.trace ++ [Event.getGroup code, Event.broadcast code g2] }
  | none => { s with trace := s.trace ++ [Event.getGroup code] }

/-- The body of the reader loop for one payload: `continue` when it does not
decode, otherwise the `switch` and the broadcast of the re-fetched group. -/
def onMessage (S : Store σ) (oor : Float64 → Int) (code uid : String) (isDM : Bool)
    (decoded : Option Incoming) (s : Sys σ) : Sys σ :=
  match decoded with
  | none => s
  | some msg => refresh S code (applyCommand S (command oor code uid isDM msg) s)

/-- The reader loop over the successive results of `ReadMessage`, and what
follows it.  With no further result the handler is waiting in `ReadMessage`; a
transport error leaves the loop, and the client is removed and the connection
closed. -/
def readLoop (S : Store σ) (oor : Float64 → Int) (code uid : String) (isDM : Bool)
    (client : ClientPtr) : List Read → Sys σ → Sys σ
  | [], s => s
  | .err :: _, s =>
    { s with hub := RemoveClient s.hub code client,
             trace := s.trace ++ [Event.removeClient code client, Event.close] }
  | .data decoded :: rest, s =>
    readLoop S oor code uid isDM client rest (onMessage S oor code uid isDM decoded s)

/-- The client value the handler allocates:
`&hub.Client{Conn: conn, UID: uid, IsDM: isDM, Group: code, SendCh: make(chan []byte, 8)}`
with `isDM := g.DMUID == uid`. -/
def newClient (g : Group) (uid code : String) : Client :=
  { UID := uid, IsDM := decide (g.DMUID = uid), Group := code, SendCh := { cap := 8, buf := [] } }

/-- The `/ws/:code` handler for the identity `uid` and the upper-cased `code`:
`upgraded` tells whether the WebSocket upgrade succeeds, `client` is the
address of the client value it allocates, `reads` the results of
`ReadMessage`. -/
def wsHandler (S : Store σ) (oor : Float64 → Int) (uid code : String) (upgraded : Bool)
    (client : ClientPtr) (reads : List Read) (s : Sys σ) : Sys σ :=
  match S.GetGroup s.store code with
  | none => { s with trace := s.trace ++ [Event.getGroup code] }
  | some g =>
    if !upgraded then { s with trace := s.trace ++ [Event.getGroup code] }
    else
      let isDM := decide (g.DMUID = uid)
      let heap1 : Heap := fun p => if p = client then newClient g uid code else s.heap p
      let hub1 := AddClient s.hub code client
      let s1 : Sys σ :=
        { s with hub := hub1, heap := BroadcastState hub1 code g heap1,
                 trace := s.trace ++ [Event.getGroup code, Event.addClient code client,
                                      Event.broadcast code g] }
      readLoop S oor code uid isDM client reads s1

/-- The commands of the `switch` that are guarded by `if !isDM { break }`. -/
def ownerOnly : List String :=
  ["addMonster", "damage", "reorder", "reset", "deleteEntity", "renameEntity",
   "editEntityHP", "addEntityTag", "removeEntityTag"]

/-- Number of `BroadcastState` calls in a trace. -/
def broadcasts : List Event → Nat
  | [] => 0
  | .broadcast _ _ :: t => broadcasts t + 1
  | _ :: t => broadcasts t

/-- The store calls of a trace. -/
def storeCalls : List Event → List StoreCall
  | [] => []
  | .store c :: t => c :: storeCalls t
  | _ :: t => storeCalls t

/-- A string field that is absent, is not a string, or is empty once its white
space is trimmed. -/
def blankField (m : Data) (k : String) : Prop :=
  index m k = none ∨ (∃ v, index m k = some v ∧ ∀ s, v ≠ Value.string s) ∨
    ∃ s, index m k = some (Value.string s) ∧ TrimSpace s = ""

/-- A store for examples: it holds the one session `g`, and its state is the
list of the calls it has received. -/
def recordingStore (g : Group) : Store (List StoreCall) :=
  { exec := fun call calls => calls ++ [call],
    GetGroup := fun _ code => if code = g.Code then some g else none }

end routes

/-! ## Sample data

The scenario of the specification: the session "ABCD" of owner U1 with the
monster Goblin and the player Aria; the owner is the client at address 1, the
player U2 the client at address 2. -/

namespace sample

open models hub routes

/-- The monster of the scenario. -/
def goblin : Entity :=
  { ID := "e1", Name := "Goblin", Typ := EntityType.Monster, HP := 7, MaxHP := 7,
    Initiative := 10, Bonus := 2, Tags := [], OwnerUID := "U1" }

/-- The player of the scenario. -/
def aria : Entity :=
  { ID := "e2", Name := "Aria", Typ := EntityType.Player, HP := 0, MaxHP := 0,
    Initiative := 8, Bonus := 3, Tags := [], OwnerUID := "U2" }

/-- The session of the scenario. -/
def session : Group :=
  { Code := "ABCD", DMUID := "U1", Entities := [goblin, aria], Round := 1, TurnIndex := 0 }

/-- The registry once the owner and the player have connected. -/
def registry : Hub := AddClient (AddClient New "ABCD" 1) "ABCD" 2

/-- The owner's client, as the handler allocates it. -/
def owner : Client := newClient session "U1" "ABCD"

/-- The player's client, as the handler allocates it. -/
def player : Client := newClient session "U2" "ABCD"

/-- Both clients with empty queues. -/
def clients : Heap := fun p => if p = 1 then owner else player

/-- The owner's queue is full (capacity 1, one message waiting), the player's
queue is empty. -/
def ownerStalled : Heap := fun p =>
  if p = 1 then { owner with SendCh := { cap := 1, buf := [stateMsg owner session] } }
  else player

/-- The system of the scenario, before any message. -/
def system : Sys (List StoreCall) :=
  { store := [], hub := registry, heap := clients, trace := [] }

/-- The player asks for a monster. -/
def addMonsterMsg : Incoming :=
  { Typ := "addMonster",
    Data := some [("name", Value.string "Orc"), ("hp", Value.float64 (Float64.finite false 5 0))] }

/-- A rename whose name is white space only. -/
def blankRenameMsg : Incoming :=
  { Typ := "renameEntity", Data := some [("id", Value.string "e1"), ("name", Value.string "  ")] }

/-- A rename whose name has white space around it. -/
def renameMsg : Incoming :=
  { Typ := "renameEntity",
    Data := some [("id", Value.string "e1"), ("name", Value.string " Goblin King ")] }

/-- Data with a number, a numeric string and a null. -/
def numbers : Data :=
  some [("hp", Value.float64 (Float64.finite false 7 0)), ("bonus", Value.string "3"),
        ("dmg", Value.null), ("init", Value.float64 (Float64.finite true 24 (-3)))]

end sample

/-! ## Lemmas on Go maps -/

namespace GoMap

variable {κ ν : Type} [DecidableEq κ]

theorem get_set_self (m : GoMap κ ν) (k : κ) (v : ν) : get (set m k v) k = some v := by
  induction m with
  | nil => simp [set, get]
  | cons p t ih =>
    obtain ⟨k', v'⟩ := p
    by_cases hk : k' = k <;> simp [set, get, hk, ih]

theorem get_set_ne (m : GoMap κ ν) (k k' : κ) (v : ν) (h : k' ≠ k) :
    get (set m k v) k' = get m k' := by
  induction m with
  | nil => simp [set, get, Ne.symm h]
  | cons p t ih =>
    obtain ⟨k0, v0⟩ := p
    by_cases hk : k0 = k
    · subst hk
      simp [set, get, Ne.symm h]
    · by_cases hk' : k0 = k'
      · subst hk'
        simp [set, get, hk]
      · simp [set, get, hk, hk', ih]

theorem set_set (m : GoMap κ ν) (k : κ) (v : ν) : set (set m k v) k v = set m k v := by
  induction m with
  | nil => simp [set]
  | cons p t ih =>
    obtain ⟨k0, v0⟩ := p
    by_cases hk : k0 = k <;> simp [set, hk, ih]

theorem get_delete_self (m : GoMap κ ν) (k : κ) : get (delete m k) k = none := by
  induction m with
  | nil => simp [delete, get]
  | cons p t ih =>
    obtain ⟨k0, v0⟩ := p
    by_cases hk : k0 = k <;> simp [delete, get, hk, ih]

theorem get_delete_ne (m : GoMap κ ν) (k k' : κ) (h : k' ≠ k) :
    get (delete m k) k' = get m k' := by
  induction m with
  | nil => simp [delete, get]
  | cons p t ih =>
    obtain ⟨k0, v0⟩ := p
    by_cases hk : k0 = k
    · subst hk
      simp [delete, get, Ne.symm h, ih]
    · by_cases hk' : k0 = k'
      · subst hk'
        simp [delete, get, hk]
      · simp [delete, get, hk, hk', ih]

theorem mem_of_get (m : GoMap κ ν) (k : κ) (v : ν) (h : get m k = some v) : (k, v) ∈ m := by
  induction m with
  | nil => simp [get] at h
  | cons p t ih =>
    obtain ⟨k0, v0⟩ := p
    by_cases hk : k0 = k
    · subst hk
      simp [get] at h
      simp [h]
    · simp [get, hk] at h
      exact List.mem_cons_of_mem _ (ih h)

theorem mem_set (m : GoMap κ ν) (k : κ) (v : ν) (p : κ × ν) (h : p ∈ set m k v) :
    p = (k, v) ∨ p ∈ m := by
  induction m with
  | nil => simpa [set] using h
  | cons q t ih =>
    obtain ⟨k0, v0⟩ := q
    by_cases hk : k0 = k
    · simp [set, hk] at h
      rcases h with h | h
      · exact Or.inl h
      · exact Or.inr (List.mem_cons_of_mem _ h)
    · simp [set, hk] at h
      rcases h with h | h
      · exact Or.inr (by simp [h])
      · rcases ih h with h' | h'
        · exact Or.inl h'
        · exact Or.inr (List.mem_cons_of_mem _ h')

theorem mem_delete (m : GoMap κ ν) (k : κ) (p : κ × ν) (h : p ∈ delete m k) : p ∈ m := by
  induction m with
  | nil => simp [delete] at h
  | cons q t ih =>
    obtain ⟨k0, v0⟩ := q
    by_cases hk : k0 = k
    · simp [delete, hk] at h
      exact List.mem_cons_of_mem _ (ih h)
    · simp [delete, hk] at h
      rcases h with h | h
      · simp [h]
      · exact List.mem_cons_of_mem _ (ih h)

theorem keys_set (m : GoMap κ ν) (k : κ) (v : ν) :
    keys (set m k v) = if k ∈ keys m then keys m else keys m ++ [k] := by
  induction m with
  | nil => simp [set, keys]
  | cons p t ih =>
    obtain ⟨k0, v0⟩ := p
    by_cases hk : k0 = k
    · subst hk
      simp [set, keys]
    · have hk' : ¬ k = k0 := fun e => hk e.symm
      simp only [keys] at ih
      by_cases hm : k ∈ List.map Prod.fst t
      · simp [set, keys, hk, hk', ih, hm]
      · simp [set, keys, hk, hk', ih, hm]

theorem WF_set (m : GoMap κ ν) (k : κ) (v : ν) (h : WF m) : WF (set m k v) := by
  unfold WF at *
  rw [keys_set]
  by_cases hm : k ∈ keys m
  · simpa [hm] using h
  · simp only [hm, if_false]
    exact List.Nodup.append h (List.nodup_singleton k) (by simpa using hm)

theorem mem_keys_set (m : GoMap κ ν) (k : κ) (v : ν) : k ∈ keys (set m k v) := by
  rw [keys_set]
  by_cases hm : k ∈ keys m <;> simp [hm]

theorem keys_delete_sublist (m : GoMap κ ν) (k : κ) :
    List.Sublist (keys (delete m k)) (keys m) := by
  induction m with
  | nil => simp [delete, keys]
  | cons p t ih =>
    obtain ⟨k0, v0⟩ := p
    simp only [keys] at ih
    by_cases hk : k0 = k
    · simp only [delete, hk, if_true, keys, List.map_cons]
      exact List.Sublist.cons _ ih
    · simp only [delete, hk, if_false, keys, List.map_cons]
      exact List.Sublist.cons₂ _ ih

theorem WF_delete (m : GoMap κ ν) (k : κ) (h : WF m) : WF (delete m k) :=
  List.Nodup.sublist (keys_delete_sublist m k) h

theorem delete_of_not_mem (m : GoMap κ ν) (k : κ) (h : k ∉ keys m) : delete m k = m := by
  induction m with
  | nil => simp [delete]
  | cons p t ih =>
    obtain ⟨k0, v0⟩ := p
    simp only [keys, List.map_cons, List.mem_cons, not_or] at h
    have hk : ¬ k0 = k := fun e => h.1 e.symm
    have := ih (by simpa [keys] using h.2)
    simp [delete, hk, this]

theorem len_delete (m : GoMap κ ν) (k : κ) (v : ν) (hwf : WF m) (h : get m k = some v) :
    len (delete m k) + 1 = len m := by
  induction m with
  | nil => simp [get] at h
  | cons p t ih =>
    obtain ⟨k0, v0⟩ := p
    have hnd : k0 ∉ keys t ∧ WF t := by
      simpa [WF, keys] using hwf
    by_cases hk : k0 = k
    · subst hk
      simp [delete, len, delete_of_not_mem t k0 hnd.1]
    · simp only [get, hk, if_false] at h
      have := ih hnd.2 h
      simp only [len] at this
      simp [delete, len, hk, this]

end GoMap

/-! ## The hub: redaction and fan-out -/

namespace hub

open models

theorem sanitize_length (es : List Entity) : (sanitize es).length = es.length := by
  simp [sanitize]

theorem sanitize_monster (es : List Entity) (e : Entity) (he : e ∈ sanitize es)
    (hm : e.Typ = EntityType.Monster) : e.HP = 0 ∧ e.MaxHP = 0 := by
  simp only [sanitize, List.mem_map] at he
  obtain ⟨e0, _, rfl⟩ := he
  by_cases h0 : e0.Typ = EntityType.Monster
  · simp [h0]
  · simp only [h0, if_false] at hm

/-- Effect of the loop of `BroadcastState` on each client, for an iteration
order without repetition: a client of the order has had one non-blocking send
of its own state message, any other client is as before. -/
theorem broadcastLoop_apply (g : Group) (cs : List ClientPtr) (hnd : cs.Nodup) (heap : Heap)
    (p : ClientPtr) :
    broadcastLoop g cs heap p =
      if p ∈ cs then { heap p with SendCh := trySend (heap p).SendCh (stateMsg (heap p) g) }
      else heap p := by
  induction cs generalizing heap with
  | nil => simp [broadcastLoop]
  | cons c t ih =>
    have hc : c ∉ t := (List.nodup_cons.mp hnd).1
    have ht : t.Nodup := (List.nodup_cons.mp hnd).2
    have hstep : broadcastLoop g (c :: t) heap = broadcastLoop g t (serveClient g heap c) := by
      simp [broadcastLoop]
    rw [hstep, ih ht]
    by_cases hpt : p ∈ t
    · have hpc : p ≠ c := fun e => hc (e ▸ hpt)
      simp [hpt, serveClient, hpc]
    · by_cases hpc : p = c
      · subst hpc
        simp [hpt, serveClient]
      · simp [hpt, hpc, serveClient]

theorem clientsOf_nodup (h : Hub) (hwf : h.WF) (group : String) : (clientsOf h group).Nodup := by
  unfold clientsOf
  cases hg : h.clients.get group with
  | none => simp
  | some m => exact hwf.2 _ (GoMap.mem_of_get _ _ _ hg)

theorem stateMsg_redacted (c : Client) (g : Group) (hdm : c.IsDM = false) :
    Redacted (stateMsg c g) := by
  intro e he hm
  simp only [stateMsg, payloadFor, hdm] at he
  exact sanitize_monster g.Entities e (by simpa using he) hm

theorem serveClient_playerView (g : Group) (heap : Heap) (c p : ClientPtr)
    (h : PlayerView (heap p)) : PlayerView (serveClient g heap c p) := by
  unfold serveClient
  by_cases hpc : p = c
  · subst hpc
    simp only [if_true]
    refine ⟨h.1, ?_⟩
    intro m hm
    unfold trySend at hm
    by_cases hroom : (heap p).SendCh.buf.length < (heap p).SendCh.cap
    · simp only [hroom, if_true, List.mem_append, List.mem_singleton] at hm
      rcases hm with hm | rfl
      · exact h.2 m hm
      · exact stateMsg_redacted _ g h.1
    · simp only [hroom, if_false] at hm
      exact h.2 m hm
  · simpa [hpc] using h

/-- A broadcast, for any code and session and over any registry, keeps a
non-owner client a non-owner with redacted messages only. -/
theorem broadcastLoop_playerView (g : Group) (cs : List ClientPtr) (heap : Heap) (p : ClientPtr)
    (h : PlayerView (heap p)) : PlayerView (broadcastLoop g cs heap p) := by
  induction cs generalizing heap with
  | nil => simpa [broadcastLoop] using h
  | cons c t ih =>
    have hstep : broadcastLoop g (c :: t) heap = broadcastLoop g t (serveClient g heap c) := by
      simp [broadcastLoop]
    rw [hstep]
    exact ih _ (serveClient_playerView g heap c p h)

/-- C2: for a subscriber whose `IsDM` flag is true the entries of the payload
are the entity sequence of the session itself, and in one broadcast, whatever
the order in which the registered clients are served (so whichever non-owners
come first), the message offered to the queue of that subscriber carries
exactly the entities of the session. -/
theorem owner_payload_is_session_entities (g : Group) (c : Client) (hdm : c.IsDM = true) :
    (payloadFor c g).Entries = g.Entities ∧
    (∀ (h : Hub) (heap : Heap) (group : String) (cs : List ClientPtr) (p : ClientPtr), h.WF →
      cs.Perm (clientsOf h group) → p ∈ cs → heap p = c →
      (broadcastLoop g cs heap p).SendCh =
        trySend c.SendCh
          { Typ := "state",
            Data := { Group := g.Code, Round := g.Round, Turn := g.TurnIndex, DMUID := g.DMUID,
                      Entries := g.Entities } }) := by
  refine ⟨by simp [payloadFor, hdm], ?_⟩
  intro h heap group cs p hwf hperm hp hheap
  have hnd : cs.Nodup := (List.Perm.nodup_iff hperm).mpr (clientsOf_nodup h hwf group)
  rw [broadcastLoop_apply g cs hnd heap p]
  simp [hp, hheap, stateMsg, payloadFor, hdm]

/-- C3: the entries of a non-owner payload have the length and the order of the
entity sequence of the session: at each position a non-Monster entry is the
entry of the session, and a Monster entry has the identifier, name, kind,
initiative, bonus, tags and owner of the entry of the session (only `HP` and
`MaxHP` can differ). -/
theorem nonowner_payload_frame (g : Group) (c : Client) (hdm : c.IsDM = false) :
    (payloadFor c g).Entries.length = g.Entities.length ∧
    ∀ (i : Nat) (e : Entity), g.Entities[i]? = some e →
      ∃ e', (payloadFor c g).Entries[i]? = some e' ∧
        (e.Typ ≠ EntityType.Monster → e' = e) ∧
        e' = { e with HP := e'.HP, MaxHP := e'.MaxHP } ∧
        e'.ID = e.ID ∧ e'.Name = e.Name ∧ e'.Typ = e.Typ ∧ e'.Initiative = e.Initiative ∧
        e'.Bonus = e.Bonus ∧ e'.Tags = e.Tags ∧ e'.OwnerUID = e.OwnerUID := by
  refine ⟨by simp [payloadFor, hdm, sanitize], ?_⟩
  intro i e he
  by_cases hm : e.Typ = EntityType.Monster
  · refine ⟨{ e with HP := 0, MaxHP := 0 }, ?_, ?_⟩
    · simp [payloadFor, hdm, sanitize, he, hm]
    · simp [hm]
  · refine ⟨e, ?_, ?_⟩
    · simp [payloadFor, hdm, sanitize, he, hm]
    · simp

/-- C5: one broadcast for a session code, serving the registered clients in any
order, changes the outbound queue of each of them as follows: a full queue is
left as it is (and so is the whole client), a queue with room gets exactly one
message appended, the state envelope of the session passed to the call:
type "state", with the code, round, turn index and owner id of that session
and, as entries, its entities for the owner and, for any other subscriber, its
entities with `HP` and `MaxHP` of every Monster set to zero; nothing else of the
subscriber changes, and a client that is not registered under the code is
untouched.  The outcome for one subscriber does not depend on the queues of the
others, and `BroadcastState` is the loop in the order of the registry. -/
theorem broadcast_queue_effect (h : Hub) (hwf : h.WF) (group : String) (g : Group)
    (heap : Heap) (cs : List ClientPtr) (hperm : cs.Perm (clientsOf h group)) :
    (∀ p ∈ clientsOf h group,
      ((heap p).SendCh.cap ≤ (heap p).SendCh.buf.length →
        broadcastLoop g cs heap p = heap p ∧ BroadcastState h group g heap p = heap p) ∧
      ((heap p).SendCh.buf.length < (heap p).SendCh.cap →
        (broadcastLoop g cs heap p).SendCh.buf =
          (heap p).SendCh.buf ++
            [{ Typ := "state",
               Data :=
                 { Group := g.Code, Round := g.Round, Turn := g.TurnIndex, DMUID := g.DMUID,
                   Entries :=
                     if (heap p).IsDM = true then g.Entities
                     else g.Entities.map (fun e =>
                       if e.Typ = EntityType.Monster then
                         { ID := e.ID, Name := e.Name, Typ := e.Typ, HP := 0, MaxHP := 0,
                           Initiative := e.Initiative, Bonus := e.Bonus, Tags := e.Tags,
                           OwnerUID := e.OwnerUID }
                       else e) } }] ∧
        (broadcastLoop g cs heap p).SendCh.buf = (heap p).SendCh.buf ++ [stateMsg (heap p) g] ∧
        (BroadcastState h group g heap p).SendCh.buf = (broadcastLoop g cs heap p).SendCh.buf ∧
        (broadcastLoop g cs heap p).SendCh.cap = (heap p).SendCh.cap ∧
        (broadcastLoop g cs heap p).UID = (heap p).UID ∧
        (broadcastLoop g cs heap p).IsDM = (heap p).IsDM ∧
        (broadcastLoop g cs heap p).Group = (heap p).Group)) ∧
    (∀ p, p ∉ clientsOf h group → broadcastLoop g cs heap p = heap p) ∧
    BroadcastState h group g heap = broadcastLoop g cs heap := by
  have hnd : cs.Nodup := (List.Perm.nodup_iff hperm).mpr (clientsOf_nodup h hwf group)
  have hsame : BroadcastState h group g heap = broadcastLoop g cs heap := by
    funext p
    unfold BroadcastState
    rw [broadcastLoop_apply g cs hnd heap p,
      broadcastLoop_apply g _ (clientsOf_nodup h hwf group) heap p]
    simp [List.Perm.mem_iff hperm]
  refine ⟨?_, ?_, hsame⟩
  · intro p hp
    have hpc : p ∈ cs := (List.Perm.mem_iff hperm).mpr hp
    rw [hsame, broadcastLoop_apply g cs hnd heap p]
    constructor
    · intro hfull
      have : ¬ (heap p).SendCh.buf.length < (heap p).SendCh.cap := by omega
      simp [hpc, trySend, this]
    · intro hroom
      refine ⟨?_, ?_, rfl, ?_, ?_, ?_, ?_⟩
      · cases hdm : (heap p).IsDM <;>
          simp [hpc, trySend, hroom, stateMsg, payloadFor, sanitize, hdm]
      · simp [hpc, trySend, hroom]
      · simp [hpc, trySend, hroom]
      · simp [hpc]
      · simp [hpc]
      · simp [hpc]
  · intro p hp
    have hpc : p ∉ cs := fun hmem => hp ((List.Perm.mem_iff hperm).mp hmem)
    rw [broadcastLoop_apply g cs hnd heap p]
    simp [hpc]

end hub

/-! ## The hub: the registry -/

namespace hub

theorem set_len_ne_zero {κ ν : Type} [DecidableEq κ] (m : GoMap κ ν) (k : κ) (v : ν) :
    (GoMap.set m k v).len ≠ 0 := by
  cases m with
  | nil => simp [GoMap.set, GoMap.len]
  | cons p t =>
    obtain ⟨k0, v0⟩ := p
    by_cases hk : k0 = k <;> simp [GoMap.set, GoMap.len, hk]

theorem AddClient_noEmptySet (h : Hub) (group : String) (c : ClientPtr) (hne : NoEmptySet h) :
    NoEmptySet (AddClient h group c) := by
  intro p hp
  unfold AddClient at hp
  cases hg : h.clients.get group with
  | none =>
    simp only [hg] at hp
    rcases GoMap.mem_set _ _ _ _ hp with rfl | hold
    · exact set_len_ne_zero _ _ _
    · exact hne p hold
  | some m =>
    simp only [hg] at hp
    rcases GoMap.mem_set _ _ _ _ hp with rfl | hold
    · exact set_len_ne_zero _ _ _
    · exact hne p hold

theorem RemoveClient_noEmptySet (h : Hub) (group : String) (c : ClientPtr)
    (hne : NoEmptySet h) : NoEmptySet (RemoveClient h group c) := by
  intro p hp
  unfold RemoveClient at hp
  cases hg : h.clients.get group with
  | none =>
    simp only [hg] at hp
    exact hne p hp
  | some m =>
    simp only [hg] at hp
    by_cases hl : (GoMap.delete m c).len = 0
    · simp only [hl, if_true] at hp
      exact hne p (GoMap.mem_delete _ _ _ hp)
    · simp only [hl, if_false] at hp
      rcases GoMap.mem_set _ _ _ _ hp with rfl | hold
      · exact hl
      · exact hne p hold

theorem AddClient_WF (h : Hub) (group : String) (c : ClientPtr) (hwf : h.WF) :
    (AddClient h group c).WF := by
  unfold AddClient
  cases hg : h.clients.get group with
  | none =>
    refine ⟨GoMap.WF_set _ _ _ hwf.1, ?_⟩
    intro p hp
    rcases GoMap.mem_set _ _ _ _ hp with rfl | hold
    · exact GoMap.WF_set _ _ _ (by simp [GoMap.WF, GoMap.keys])
    · exact hwf.2 p hold
  | some m =>
    refine ⟨GoMap.WF_set _ _ _ hwf.1, ?_⟩
    intro p hp
    rcases GoMap.mem_set _ _ _ _ hp with rfl | hold
    · exact GoMap.WF_set _ _ _ (hwf.2 _ (GoMap.mem_of_get _ _ _ hg))
    · exact hwf.2 p hold

theorem RemoveClient_WF (h : Hub) (group : String) (c : ClientPtr) (hwf : h.WF) :
    (RemoveClient h group c).WF := by
  unfold RemoveClient
  cases hg : h.clients.get group with
  | none => exact hwf
  | some m =>
    by_cases hl : (GoMap.delete m c).len = 0
    · simp only [hl, if_true]
      exact ⟨GoMap.WF_delete _ _ hwf.1, fun p hp => hwf.2 p (GoMap.mem_delete _ _ _ hp)⟩
    · simp only [hl, if_false]
      refine ⟨GoMap.WF_set _ _ _ hwf.1, ?_⟩
      intro p hp
      rcases GoMap.mem_set _ _ _ _ hp with rfl | hold
      · exact GoMap.WF_delete _ _ (hwf.2 _ (GoMap.mem_of_get _ _ _ hg))
      · exact hwf.2 p hold

theorem foldl_apply_inv (P : Hub → Prop)
    (hadd : ∀ h group c, P h → P (AddClient h group c))
    (hrem : ∀ h group c, P h → P (RemoveClient h group c))
    (ops : List HubOp) (h : Hub) (hP : P h) : P (ops.foldl HubOp.apply h) := by
  induction ops generalizing h with
  | nil => simpa using hP
  | cons op t ih =>
    simp only [List.foldl_cons]
    apply ih
    cases op with
    | add group c => exact hadd h group c hP
    | remove group c => exact hrem h group c hP

theorem reach_WF (ops : List HubOp) : (reach ops).WF :=
  foldl_apply_inv Hub.WF AddClient_WF RemoveClient_WF ops New
    (by simp [New, Hub.WF, GoMap.WF, GoMap.keys])

theorem reach_noEmptySet (ops : List HubOp) : NoEmptySet (reach ops) :=
  foldl_apply_inv NoEmptySet AddClient_noEmptySet RemoveClient_noEmptySet ops New
    (by simp [New, NoEmptySet])

/-- C6: in every hub reached from `New()` by `AddClient` and `RemoveClient`
calls no session code of the registry maps to an empty subscriber set; and when
`RemoveClient` removes the only subscriber registered for a code, the registry
afterwards has no entry for that code, has one entry less, and maps every other
code as before. -/
theorem registry_keeps_no_empty_set (ops : List HubOp) :
    (∀ (code : String) (m : GoMap ClientPtr Bool),
      (reach ops).clients.get code = some m → m.len ≠ 0) ∧
    (∀ p ∈ (reach ops).clients, p.2.len ≠ 0) ∧
    (∀ (code : String) (c : ClientPtr), clientsOf (reach ops) code = [c] →
      (RemoveClient (reach ops) code c).clients.get code = none ∧
      (RemoveClient (reach ops) code c).clients.len + 1 = (reach ops).clients.len ∧
      ∀ code', code' ≠ code →
        (RemoveClient (reach ops) code c).clients.get code' = (reach ops).clients.get code') := by
  refine ⟨?_, reach_noEmptySet ops, ?_⟩
  · intro code m hm
    exact reach_noEmptySet ops _ (GoMap.mem_of_get _ _ _ hm)
  · intro code c hc
    unfold clientsOf at hc
    cases hg : (reach ops).clients.get code with
    | none => simp [hg] at hc
    | some m =>
      simp only [hg] at hc
      have hdel : (GoMap.delete m c).len = 0 := by
        cases m with
        | nil => simp [GoMap.keys] at hc
        | cons q t =>
          obtain ⟨k0, v0⟩ := q
          simp only [GoMap.keys, List.map_cons, List.cons.injEq, List.map_eq_nil_iff] at hc
          obtain ⟨rfl, rfl⟩ := hc
          simp [GoMap.delete, GoMap.len]
      have hrem : RemoveClient (reach ops) code c
          = { clients := (reach ops).clients.delete code } := by
        simp [RemoveClient, hg, hdel]
      rw [hrem]
      refine ⟨GoMap.get_delete_self _ _, GoMap.len_delete _ _ m (reach_WF ops).1 hg, ?_⟩
      intro code' hne
      exact GoMap.get_delete_ne _ _ _ hne

/-- C7: `AddClient` is idempotent: adding the same subscriber to the same code
a second time leaves the registry as the first call made it, and the subscriber
occurs once among the clients a broadcast for that code ranges over. -/
theorem addClient_idempotent (h : Hub) (group : String) (c : ClientPtr) :
    AddClient (AddClient h group c) group c = AddClient h group c ∧
    (h.WF → (clientsOf (AddClient (AddClient h group c) group c) group).count c = 1) := by
  have hget : ∃ m : GoMap ClientPtr Bool,
      AddClient h group c = { clients := h.clients.set group (m.set c true) } ∧
      (h.WF → GoMap.WF m) := by
    unfold AddClient
    cases hg : h.clients.get group with
    | none => exact ⟨[], rfl, fun _ => by simp [GoMap.WF, GoMap.keys]⟩
    | some m => exact ⟨m, rfl, fun hwf => hwf.2 _ (GoMap.mem_of_get _ _ _ hg)⟩
  obtain ⟨m, hm, hmwf⟩ := hget
  have hidem : AddClient (AddClient h group c) group c = AddClient h group c := by
    rw [hm]
    simp [AddClient, GoMap.get_set_self, GoMap.set_set]
  refine ⟨hidem, ?_⟩
  intro hwf
  rw [hidem, hm]
  simp only [clientsOf, GoMap.get_set_self]
  exact List.count_eq_one_of_mem (GoMap.WF_set _ _ _ (hmwf hwf)) (GoMap.mem_keys_set _ _ _)

end hub

/-! ## The router: field extraction -/

namespace routes

open models hub

theorem wrapInt_range (z : Int) : minInt ≤ wrapInt z ∧ wrapInt z ≤ maxInt := by
  unfold wrapInt minInt maxInt
  have h1 : (0 : Int) ≤ (z + 2 ^ 63) % 2 ^ 64 := Int.emod_nonneg _ (by norm_num)
  have h2 : (z + 2 ^ 63) % 2 ^ 64 < 2 ^ 64 := Int.emod_lt_of_pos _ (by norm_num)
  constructor <;> omega

theorem intOfFloat_range (oor : Float64 → Int) (t : Float64) :
    minInt ≤ intOfFloat oor t ∧ intOfFloat oor t ≤ maxInt := by
  unfold intOfFloat
  cases ht : t.trunc with
  | none => exact wrapInt_range _
  | some z =>
    by_cases hz : minInt ≤ z ∧ z ≤ maxInt
    · simp [hz]
    · simpa [hz] using wrapInt_range _

theorem trunc_of_toInt? (t : Float64) (n : Int) (h : t.toInt? = some n) : t.trunc = some n := by
  cases t with
  | finite neg mant exp =>
    by_cases he : 0 ≤ exp
    · simpa [Float64.toInt?, Float64.trunc, he] using h
    · by_cases hm : mant % 2 ^ (-exp).toNat = 0
      · simpa [Float64.toInt?, Float64.trunc, he, hm] using h
      · simp [Float64.toInt?, he, hm] at h
  | inf neg => simp [Float64.toInt?] at h
  | nan => simp [Float64.toInt?] at h

/-- C10 (as stated, refuted): the value under `"hp"` is the `float64`
`1 * 2^63`, the integer-valued number `9223372036854775808`, and `getInt` does
not return that number, whatever the target makes of a conversion that leaves
the range of `int`. -/
theorem getInt_integer_valued_out_of_range :
    Float64.toInt? (Float64.finite false 1 63) = some 9223372036854775808 ∧
    ¬ ∃ oor : Float64 → Int,
      getInt oor (some [("hp", Value.float64 (Float64.finite false 1 63))]) "hp"
        = 9223372036854775808 := by
  constructor
  · decide
  · rintro ⟨oor, h⟩
    have heq : getInt oor (some [("hp", Value.float64 (Float64.finite false 1 63))]) "hp"
        = intOfFloat oor (Float64.finite false 1 63) := by
      simp [getInt, index, GoMap.get]
    rw [heq] at h
    have hr := (intOfFloat_range oor (Float64.finite false 1 63)).2
    rw [h] at hr
    unfold maxInt at hr
    omega

/-- C10 (amended): `getInt` is a total function that defaults to 0: for every
data map, the nil map included, and every key it returns 0 when the key is
absent or its value is neither a `float64` nor an `int` (a string, also a
numeric one, a boolean, null, an array, an object), it returns `n` when the
value is an `int` `n` or a `float64` equal to the integer `n` with
`-2^63 ≤ n ≤ 2^63 - 1`, and its result always lies in that range for a
`float64`. -/
theorem getInt_defaults_to_zero (oor : Float64 → Int) (m : Data) (k : String) :
    getInt oor none k = 0 ∧
    (index m k = none → getInt oor m k = 0) ∧
    (∀ v, index m k = some v → (∀ t, v ≠ Value.float64 t) → (∀ n, v ≠ Value.int n) →
      getInt oor m k = 0) ∧
    (∀ s, index m k = some (Value.string s) → getInt oor m k = 0) ∧
    (∀ n, index m k = some (Value.int n) → getInt oor m k = n) ∧
    (∀ t n, index m k = some (Value.float64 t) → t.toInt? = some n →
      minInt ≤ n → n ≤ maxInt → getInt oor m k = n) ∧
    (∀ t, index m k = some (Value.float64 t) →
      minInt ≤ getInt oor m k ∧ getInt oor m k ≤ maxInt) := by
  refine ⟨by simp [getInt, index], ?_, ?_, ?_, ?_, ?_, ?_⟩
  · intro h
    simp [getInt, h]
  · intro v hv hf hi
    cases v with
    | float64 t => exact absurd rfl (hf t)
    | int n => exact absurd rfl (hi n)
    | null => simp [getInt, hv]
    | bool b => simp [getInt, hv]
    | string s => simp [getInt, hv]
    | slice xs => simp [getInt, hv]
    | map mm => simp [getInt, hv]
  · intro s hs
    simp [getInt, hs]
  · intro n hn
    simp [getInt, hn]
  · intro t n ht hn hlo hhi
    simp [getInt, ht, intOfFloat, trunc_of_toInt? t n hn, hlo, hhi]
  · intro t ht
    simpa [getInt, ht] using intOfFloat_range oor t

end routes

/-! ## The router: dispatch and broadcast -/

namespace routes

open models hub

variable {σ : Type}

theorem getStr_of_blank (m : Data) (k : String) (h : blankField m k) :
    TrimSpace (getStr m k) = "" := by
  have hempty : TrimSpace "" = "" := by decide
  rcases h with h | ⟨v, hv, hns⟩ | ⟨s, hs, ht⟩
  · simp [getStr, h, hempty]
  · cases v with
    | string s => exact absurd rfl (hns s)
    | null => simp [getStr, hv, hempty]
    | bool b => simp [getStr, hv, hempty]
    | float64 t => simp [getStr, hv, hempty]
    | int n => simp [getStr, hv, hempty]
    | slice xs => simp [getStr, hv, hempty]
    | map mm => simp [getStr, hv, hempty]
  · simp [getStr, hs, ht]

theorem blank_of_getStr (m : Data) (k : String) (h : TrimSpace (getStr m k) = "") :
    blankField m k := by
  cases hi : index m k with
  | none => exact Or.inl hi
  | some v =>
    cases v with
    | string s =>
      refine Or.inr (Or.inr ⟨s, hi, ?_⟩)
      simpa [getStr, hi] using h
    | null => exact Or.inr (Or.inl ⟨_, hi, fun s => by simp⟩)
    | bool b => exact Or.inr (Or.inl ⟨_, hi, fun s => by simp⟩)
    | float64 t => exact Or.inr (Or.inl ⟨_, hi, fun s => by simp⟩)
    | int n => exact Or.inr (Or.inl ⟨_, hi, fun s => by simp⟩)
    | slice xs => exact Or.inr (Or.inl ⟨_, hi, fun s => by simp⟩)
    | map mm => exact Or.inr (Or.inl ⟨_, hi, fun s => by simp⟩)

theorem broadcasts_append (a b : List Event) : broadcasts (a ++ b) = broadcasts a + broadcasts b := by
  induction a with
  | nil => simp [broadcasts]
  | cons e t ih =>
    cases e <;> simp [broadcasts, ih]
    omega

theorem storeCalls_append (a b : List Event) : storeCalls (a ++ b) = storeCalls a ++ storeCalls b := by
  induction a with
  | nil => simp [storeCalls]
  | cons e t ih =>
    cases e <;> simp [storeCalls, ih]

/-- C4: for an envelope whose type is one of the owner-only commands, whatever
its data, on a connection that is not the owner: the `switch` reaches no store
method, so the loop body is the re-fetch and broadcast alone, the store and the
registry are as before, the trace gains no store call, removal or close, and the
reader loop goes on with the next read. -/
theorem nonowner_command_is_ignored (S : Store σ) (oor : Float64 → Int) (code uid : String)
    (msg : Incoming) (s : Sys σ) (hty : msg.Typ ∈ ownerOnly) :
    command oor code uid false msg = none ∧
    onMessage S oor code uid false (some msg) s = refresh S code s ∧
    (onMessage S oor code uid false (some msg) s).store = s.store ∧
    (onMessage S oor code uid false (some msg) s).hub = s.hub ∧
    storeCalls (onMessage S oor code uid false (some msg) s).trace = storeCalls s.trace ∧
    (∃ evs, (onMessage S oor code uid false (some msg) s).trace = s.trace ++ evs ∧
      ∀ e ∈ evs, e = Event.getGroup code ∨ ∃ g2, e = Event.broadcast code g2) ∧
    (∀ (client : ClientPtr) (rest : List Read),
      readLoop S oor code uid false client (Read.data (some msg) :: rest) s =
        readLoop S oor code uid false client rest
          (onMessage S oor code uid false (some msg) s)) := by
  have hcmd : command oor code uid false msg = none := by
    simp only [ownerOnly, List.mem_cons, List.mem_singleton, List.not_mem_nil, or_false] at hty
    rcases hty with h | h | h | h | h | h | h | h | h <;> simp [command, h]
  have hon : onMessage S oor code uid false (some msg) s = refresh S code s := by
    simp [onMessage, hcmd, applyCommand]
  refine ⟨hcmd, hon, ?_, ?_, ?_, ?_, ?_⟩
  · rw [hon]; unfold refresh; cases S.GetGroup s.store code <;> rfl
  · rw [hon]; unfold refresh; cases S.GetGroup s.store code <;> rfl
  · rw [hon]; unfold refresh
    cases S.GetGroup s.store code <;> simp [storeCalls_append, storeCalls]
  · rw [hon]; unfold refresh
    cases hg : S.GetGroup s.store code with
    | none => exact ⟨[Event.getGroup code], rfl, by simp⟩
    | some g2 => exact ⟨[Event.getGroup code, Event.broadcast code g2], rfl, by simp⟩
  · intro client rest
    rfl

/-- C9 (as stated, refuted): a payload that does not decode is received on a
connection to the existing session "ABCD"; the router makes no call at all for
it, neither the re-fetch nor a broadcast, and reads on. -/
theorem undecodable_message_is_not_broadcast :
    (recordingStore ⟨"ABCD", "U1", [], 1, 0⟩).GetGroup [] "ABCD" = some ⟨"ABCD", "U1", [], 1, 0⟩ ∧
    (onMessage (recordingStore ⟨"ABCD", "U1", [], 1, 0⟩) (fun _ => 0) "ABCD" "U1" true none
      ⟨[], AddClient New "ABCD" 1, fun _ => ⟨"U1", true, "ABCD", ⟨8, []⟩⟩, []⟩).trace = [] ∧
    broadcasts
      (readLoop (recordingStore ⟨"ABCD", "U1", [], 1, 0⟩) (fun _ => 0) "ABCD" "U1" true 1
        [Read.data none]
        ⟨[], AddClient New "ABCD" 1, fun _ => ⟨"U1", true, "ABCD", ⟨8, []⟩⟩, []⟩).trace = 0 := by
  refine ⟨by decide, rfl, rfl⟩

/-- C9 (amended): for every message whose payload decodes, whether its command
is applied, is a no-op, is rejected for lack of authority or has an unknown
type, the loop body makes at most one store call, then re-fetches the session
from the store and, the session being found, invokes `BroadcastState` exactly
once, for the session code and with the re-fetched session, before the next
read; a payload that does not decode is skipped with no call at all. -/
theorem decoded_message_is_broadcast_once (S : Store σ) (oor : Float64 → Int)
    (code uid : String) (isDM : Bool) (msg : Incoming) (s : Sys σ) :
    (∀ g2, S.GetGroup (applyCommand S (command oor code uid isDM msg) s).store code = some g2 →
      (onMessage S oor code uid isDM (some msg) s).trace =
        s.trace ++ ((command oor code uid isDM msg).toList.map Event.store
          ++ [Event.getGroup code, Event.broadcast code g2]) ∧
      broadcasts (onMessage S oor code uid isDM (some msg) s).trace = broadcasts s.trace + 1 ∧
      (onMessage S oor code uid isDM (some msg) s).heap = BroadcastState s.hub code g2 s.heap) ∧
    (S.GetGroup (applyCommand S (command oor code uid isDM msg) s).store code = none →
      broadcasts (onMessage S oor code uid isDM (some msg) s).trace = broadcasts s.trace) ∧
    onMessage S oor code uid isDM none s = s ∧
    (∀ (client : ClientPtr) (decoded : Option Incoming) (rest : List Read),
      readLoop S oor code uid isDM client (Read.data decoded :: rest) s =
        readLoop S oor code uid isDM client rest (onMessage S oor code uid isDM decoded s)) := by
  refine ⟨?_, ?_, rfl, fun _ _ _ => rfl⟩
  · intro g2 hg
    cases hc : command oor code uid isDM msg with
    | none =>
      rw [hc] at hg
      simp only [applyCommand] at hg
      simp [onMessage, hc, applyCommand, refresh, hg, broadcasts_append, broadcasts]
    | some call =>
      rw [hc] at hg
      simp only [applyCommand] at hg
      simp [onMessage, hc, applyCommand, refresh, hg, broadcasts_append, broadcasts]
  · intro hg
    cases hc : command oor code uid isDM msg with
    | none =>
      rw [hc] at hg
      simp only [applyCommand] at hg
      simp [onMessage, hc, applyCommand, refresh, hg, broadcasts_append, broadcasts]
    | some call =>
      rw [hc] at hg
      simp only [applyCommand] at hg
      simp [onMessage, hc, applyCommand, refresh, hg, broadcasts_append, broadcasts]

end routes

/-! ## The router: names and tags -/

namespace routes

open models hub

variable {σ : Type}

theorem command_renameEntity (oor : Float64 → Int) (code uid : String) (isDM : Bool)
    (msg : Incoming) (h : msg.Typ = "renameEntity") :
    command oor code uid isDM msg =
      if isDM = true ∧ TrimSpace (getStr msg.Data "name") ≠ "" then
        some (StoreCall.RenameEntity code uid (getStr msg.Data "id")
          (TrimSpace (getStr msg.Data "name")))
      else none := by
  cases isDM <;> simp [command, h]

theorem command_addEntityTag (oor : Float64 → Int) (code uid : String) (isDM : Bool)
    (msg : Incoming) (h : msg.Typ = "addEntityTag") :
    command oor code uid isDM msg =
      if isDM = true ∧ TrimSpace (getStr msg.Data "tag") ≠ "" then
        some (StoreCall.AddEntityTag code uid (getStr msg.Data "id")
          (TrimSpace (getStr msg.Data "tag")))
      else none := by
  cases isDM <;> simp [command, h]

theorem command_removeEntityTag (oor : Float64 → Int) (code uid : String) (isDM : Bool)
    (msg : Incoming) (h : msg.Typ = "removeEntityTag") :
    command oor code uid isDM msg =
      if isDM = true ∧ TrimSpace (getStr msg.Data "tag") ≠ "" then
        some (StoreCall.RemoveEntityTag code uid (getStr msg.Data "id")
          (TrimSpace (getStr msg.Data "tag")))
      else none := by
  cases isDM <;> simp [command, h]

theorem onMessage_of_none (S : Store σ) (oor : Float64 → Int) (code uid : String) (isDM : Bool)
    (msg : Incoming) (s : Sys σ) (h : command oor code uid isDM msg = none) :
    onMessage S oor code uid isDM (some msg) s = refresh S code s := by
  simp [onMessage, h, applyCommand]

theorem onMessage_of_some (S : Store σ) (oor : Float64 → Int) (code uid : String) (isDM : Bool)
    (msg : Incoming) (s : Sys σ) (call : StoreCall)
    (h : command oor code uid isDM msg = some call) :
    onMessage S oor code uid isDM (some msg) s =
      refresh S code { s with store := S.exec call s.store,
                              trace := s.trace ++ [Event.store call] } := by
  simp [onMessage, h, applyCommand]

/-- C8: for `renameEntity`, `addEntityTag` and `removeEntityTag`, from the owner
or not: when the name (respectively tag) field is absent, is not a string or
is empty after trimming white space, the `switch` reaches no store method and
the loop body is the re-fetch and broadcast alone; when the field is a string
that is not empty after trimming, the owner's command reaches the store method
once, with the entity id and the trimmed string. -/
theorem blank_name_or_tag_is_noop (S : Store σ) (oor : Float64 → Int) (code uid : String)
    (isDM : Bool) (msg : Incoming) (s : Sys σ) :
    (msg.Typ = "renameEntity" →
      (blankField msg.Data "name" →
        command oor code uid isDM msg = none ∧
        onMessage S oor code uid isDM (some msg) s = refresh S code s) ∧
      (∀ v, index msg.Data "name" = some (Value.string v) → TrimSpace v ≠ "" →
        command oor code uid true msg =
          some (StoreCall.RenameEntity code uid (getStr msg.Data "id") (TrimSpace v)) ∧
        onMessage S oor code uid true (some msg) s =
          refresh S code
            { s with store := S.exec (StoreCall.RenameEntity code uid (getStr msg.Data "id")
                                (TrimSpace v)) s.store,
                     trace := s.trace ++ [Event.store (StoreCall.RenameEntity code uid
                                (getStr msg.Data "id") (TrimSpace v))] })) ∧
    (msg.Typ = "addEntityTag" →
      (blankField msg.Data "tag" →
        command oor code uid isDM msg = none ∧
        onMessage S oor code uid isDM (some msg) s = refresh S code s) ∧
      (∀ v, index msg.Data "tag" = some (Value.string v) → TrimSpace v ≠ "" →
        command oor code uid true msg =
          some (StoreCall.AddEntityTag code uid (getStr msg.Data "id") (TrimSpace v)) ∧
        onMessage S oor code uid true (some msg) s =
          refresh S code
            { s with store := S.exec (StoreCall.AddEntityTag code uid (getStr msg.Data "id")
                                (TrimSpace v)) s.store,
                     trace := s.trace ++ [Event.store (StoreCall.AddEntityTag code uid
                                (getStr msg.Data "id") (TrimSpace v))] })) ∧
    (msg.Typ = "removeEntityTag" →
      (blankField msg.Data "tag" →
        command oor code uid isDM msg = none ∧
        onMessage S oor code uid isDM (some msg) s = refresh S code s) ∧
      (∀ v, index msg.Data "tag" = some (Value.string v) → TrimSpace v ≠ "" →
        command oor code uid true msg =
          some (StoreCall.RemoveEntityTag code uid (getStr msg.Data "id") (TrimSpace v)) ∧
        onMessage S oor code uid true (some msg) s =
          refresh S code
            { s with store := S.exec (StoreCall.RemoveEntityTag code uid (getStr msg.Data "id")
                                (TrimSpace v)) s.store,
                     trace := s.trace ++ [Event.store (StoreCall.RemoveEntityTag code uid
                                (getStr msg.Data "id") (TrimSpace v))] })) := by
  refine ⟨fun hty => ⟨fun hb => ?_, fun v hv hne => ?_⟩,
          fun hty => ⟨fun hb => ?_, fun v hv hne => ?_⟩,
          fun hty => ⟨fun hb => ?_, fun v hv hne => ?_⟩⟩
  · have hc : command oor code uid isDM msg = none := by
      rw [command_renameEntity oor code uid isDM msg hty]
      simp [getStr_of_blank _ _ hb]
    exact ⟨hc, onMessage_of_none S oor code uid isDM msg s hc⟩
  · have hg : getStr msg.Data "name" = v := by simp [getStr, hv]
    have hc : command oor code uid true msg =
        some (StoreCall.RenameEntity code uid (getStr msg.Data "id") (TrimSpace v)) := by
      rw [command_renameEntity oor code uid true msg hty]
      simp [hg, hne]
    exact ⟨hc, onMessage_of_some S oor code uid true msg s _ hc⟩
  · have hc : command oor code uid isDM msg = none := by
      rw [command_addEntityTag oor code uid isDM msg hty]
      simp [getStr_of_blank _ _ hb]
    exact ⟨hc, onMessage_of_none S oor code uid isDM msg s hc⟩
  · have hg : getStr msg.Data "tag" = v := by simp [getStr, hv]
    have hc : command oor code uid true msg =
        some (StoreCall.AddEntityTag code uid (getStr msg.Data "id") (TrimSpace v)) := by
      rw [command_addEntityTag oor code uid true msg hty]
      simp [hg, hne]
    exact ⟨hc, onMessage_of_some S oor code uid true msg s _ hc⟩
  · have hc : command oor code uid isDM msg = none := by
      rw [command_removeEntityTag oor code uid isDM msg hty]
      simp [getStr_of_blank _ _ hb]
    exact ⟨hc, onMessage_of_none S oor code uid isDM msg s hc⟩
  · have hg : getStr msg.Data "tag" = v := by simp [getStr, hv]
    have hc : command oor code uid true msg =
        some (StoreCall.RemoveEntityTag code uid (getStr msg.Data "id") (TrimSpace v)) := by
      rw [command_removeEntityTag oor code uid true msg hty]
      simp [hg, hne]
    exact ⟨hc, onMessage_of_some S oor code uid true msg s _ hc⟩

end routes

/-! ## The router: what a player receives -/

namespace routes

open models hub

variable {σ : Type}

theorem refresh_playerView (S : Store σ) (code : String) (s : Sys σ) (p : ClientPtr)
    (h : PlayerView (s.heap p)) : PlayerView ((refresh S code s).heap p) := by
  unfold refresh
  cases S.GetGroup s.store code with
  | none => exact h
  | some g2 => exact broadcastLoop_playerView g2 _ s.heap p h

theorem onMessage_playerView (S : Store σ) (oor : Float64 → Int) (code uid : String)
    (isDM : Bool) (decoded : Option Incoming) (s : Sys σ) (p : ClientPtr)
    (h : PlayerView (s.heap p)) :
    PlayerView ((onMessage S oor code uid isDM decoded s).heap p) := by
  cases decoded with
  | none => exact h
  | some msg =>
    simp only [onMessage]
    apply refresh_playerView
    cases command oor code uid isDM msg <;> exact h

theorem readLoop_playerView (S : Store σ) (oor : Float64 → Int) (code uid : String)
    (isDM : Bool) (client : ClientPtr) (reads : List Read) (s : Sys σ) (p : ClientPtr)
    (h : PlayerView (s.heap p)) :
    PlayerView ((readLoop S oor code uid isDM client reads s).heap p) := by
  induction reads generalizing s with
  | nil => exact h
  | cons r rest ih =>
    cases r with
    | err => exact h
    | data decoded =>
      simp only [readLoop]
      exact ih _ (onMessage_playerView S oor code uid isDM decoded s p h)

/-- C1: the WebSocket handler serves a connection whose uid is not the owner
id of the session: the client it registers has `IsDM` false; for every session
state the payload `BroadcastState` builds for that client has `HP = 0` and
`MaxHP = 0` in every Monster entry; whatever messages the connection then
receives, every message in the queue of the client is such a payload; and any
further broadcast, for any session state and over any registry, keeps it so. -/
theorem nonowner_payload_hides_monster_hp (S : Store σ) (oor : Float64 → Int)
    (uid code : String) (client : ClientPtr) (reads : List Read) (s : Sys σ) (g0 : Group)
    (hfound : S.GetGroup s.store code = some g0) (hne : g0.DMUID ≠ uid) :
    ((wsHandler S oor uid code true client reads s).heap client).IsDM = false ∧
    (∀ (g : Group), ∀ e ∈ (payloadFor
        ((wsHandler S oor uid code true client reads s).heap client) g).Entries,
      e.Typ = EntityType.Monster → e.HP = 0 ∧ e.MaxHP = 0) ∧
    (∀ m ∈ ((wsHandler S oor uid code true client reads s).heap client).SendCh.buf,
      ∀ e ∈ m.Data.Entries, e.Typ = EntityType.Monster → e.HP = 0 ∧ e.MaxHP = 0) ∧
    (∀ (h : Hub) (group : String) (g : Group),
      ∀ m ∈ (BroadcastState h group g
          (wsHandler S oor uid code true client reads s).heap client).SendCh.buf,
      ∀ e ∈ m.Data.Entries, e.Typ = EntityType.Monster → e.HP = 0 ∧ e.MaxHP = 0) := by
  have hview : PlayerView ((wsHandler S oor uid code true client reads s).heap client) := by
    simp only [wsHandler, hfound, Bool.not_true, Bool.false_eq_true, if_false]
    apply readLoop_playerView
    apply broadcastLoop_playerView
    simp [PlayerView, newClient, hne]
  refine ⟨hview.1, ?_, hview.2, ?_⟩
  · intro g e he hm
    exact stateMsg_redacted _ g hview.1 e he hm
  · intro h group g
    exact (broadcastLoop_playerView g _ _ client hview).2

end routes

/-! ## The properties on the sample scenario -/

namespace sample

open models hub routes

theorem nonowner_payload_hides_monster_hp_witness :
    (recordingStore session).GetGroup [] "ABCD" = some session ∧ session.DMUID ≠ "U2" ∧
    ((wsHandler (recordingStore session) (fun _ => 0) "U2" "ABCD" true 2
        [Read.data (some addMonsterMsg)]
        ⟨[], AddClient New "ABCD" 1, clients, []⟩).heap 2).IsDM = false ∧
    (∀ m ∈ ((wsHandler (recordingStore session) (fun _ => 0) "U2" "ABCD" true 2
        [Read.data (some addMonsterMsg)]
        ⟨[], AddClient New "ABCD" 1, clients, []⟩).heap 2).SendCh.buf,
      ∀ e ∈ m.Data.Entries, e.Typ = EntityType.Monster → e.HP = 0 ∧ e.MaxHP = 0) :=
  ⟨by decide, by decide,
    (nonowner_payload_hides_monster_hp (recordingStore session) (fun _ => 0) "U2" "ABCD" 2
      [Read.data (some addMonsterMsg)] ⟨[], AddClient New "ABCD" 1, clients, []⟩ session
      (by decide) (by decide)).1,
    (nonowner_payload_hides_monster_hp (recordingStore session) (fun _ => 0) "U2" "ABCD" 2
      [Read.data (some addMonsterMsg)] ⟨[], AddClient New "ABCD" 1, clients, []⟩ session
      (by decide) (by decide)).2.2.1⟩

theorem owner_payload_is_session_entities_witness :
    owner.IsDM = true ∧ (payloadFor owner session).Entries = [goblin, aria] :=
  ⟨by decide, (owner_payload_is_session_entities session owner (by decide)).1⟩

theorem nonowner_payload_frame_witness :
    player.IsDM = false ∧ (payloadFor player session).Entries.length = 2 :=
  ⟨by decide, (nonowner_payload_frame session player (by decide)).1⟩

theorem nonowner_command_is_ignored_witness :
    addMonsterMsg.Typ ∈ ownerOnly ∧
    command (fun _ => 0) "ABCD" "U2" false addMonsterMsg = none ∧
    (onMessage (recordingStore session) (fun _ => 0) "ABCD" "U2" false (some addMonsterMsg)
      system).store = [] :=
  ⟨by decide,
    (nonowner_command_is_ignored (recordingStore session) (fun _ => 0) "ABCD" "U2"
      addMonsterMsg system (by decide)).1,
    (nonowner_command_is_ignored (recordingStore session) (fun _ => 0) "ABCD" "U2"
      addMonsterMsg system (by decide)).2.2.1⟩

theorem broadcast_queue_effect_witness :
    registry.WF ∧ [2, 1].Perm (clientsOf registry "ABCD") ∧
    (broadcastLoop session [2, 1] ownerStalled 1 = ownerStalled 1 ∧
      BroadcastState registry "ABCD" session ownerStalled 1 = ownerStalled 1) ∧
    (broadcastLoop session [2, 1] ownerStalled 2).SendCh.buf =
      [{ Typ := "state",
         Data :=
           { Group := "ABCD", Round := 1, Turn := 0, DMUID := "U1",
             Entries :=
               [{ ID := "e1", Name := "Goblin", Typ := EntityType.Monster, HP := 0, MaxHP := 0,
                  Initiative := 10, Bonus := 2, Tags := [], OwnerUID := "U1" },
                { ID := "e2", Name := "Aria", Typ := EntityType.Player, HP := 0, MaxHP := 0,
                  Initiative := 8, Bonus := 3, Tags := [], OwnerUID := "U2" }] } }] ∧
    (broadcastLoop session [1, 2] clients 1).SendCh.buf =
      [{ Typ := "state",
         Data :=
           { Group := "ABCD", Round := 1, Turn := 0, DMUID := "U1",
             Entries :=
               [{ ID := "e1", Name := "Goblin", Typ := EntityType.Monster, HP := 7, MaxHP := 7,
                  Initiative := 10, Bonus := 2, Tags := [], OwnerUID := "U1" },
                { ID := "e2", Name := "Aria", Typ := EntityType.Player, HP := 0, MaxHP := 0,
                  Initiative := 8, Bonus := 3, Tags := [], OwnerUID := "U2" }] } }] :=
  ⟨by decide, by decide,
    ((broadcast_queue_effect registry (by decide) "ABCD" session ownerStalled [2, 1]
      (by decide)).1 1 (by decide)).1 (by decide),
    (((broadcast_queue_effect registry (by decide) "ABCD" session ownerStalled [2, 1]
      (by decide)).1 2 (by decide)).2 (by decide)).1,
    (((broadcast_queue_effect registry (by decide) "ABCD" session clients [1, 2]
      (by decide)).1 1 (by decide)).2 (by decide)).1⟩

theorem registry_keeps_no_empty_set_witness :
    clientsOf (reach [HubOp.add "ABCD" 1, HubOp.add "WXYZ" 2]) "ABCD" = [1] ∧
    (RemoveClient (reach [HubOp.add "ABCD" 1, HubOp.add "WXYZ" 2]) "ABCD" 1).clients.get "ABCD"
      = none ∧
    (RemoveClient (reach [HubOp.add "ABCD" 1, HubOp.add "WXYZ" 2]) "ABCD" 1).clients.len + 1
      = (reach [HubOp.add "ABCD" 1, HubOp.add "WXYZ" 2]).clients.len :=
  ⟨by decide,
    ((registry_keeps_no_empty_set [HubOp.add "ABCD" 1, HubOp.add "WXYZ" 2]).2.2 "ABCD" 1
      (by decide)).1,
    ((registry_keeps_no_empty_set [HubOp.add "ABCD" 1, HubOp.add "WXYZ" 2]).2.2 "ABCD" 1
      (by decide)).2.1⟩

theorem addClient_idempotent_witness :
    registry.WF ∧ AddClient (AddClient registry "ABCD" 2) "ABCD" 2 = AddClient registry "ABCD" 2 ∧
    (clientsOf (AddClient (AddClient registry "ABCD" 2) "ABCD" 2) "ABCD").count 2 = 1 :=
  ⟨by decide, (addClient_idempotent registry "ABCD" 2).1,
    (addClient_idempotent registry "ABCD" 2).2 (by decide)⟩

theorem blank_name_or_tag_is_noop_witness :
    blankRenameMsg.Typ = "renameEntity" ∧ blankField blankRenameMsg.Data "name" ∧
    command (fun _ => 0) "ABCD" "U1" true blankRenameMsg = none ∧
    index renameMsg.Data "name" = some (Value.string " Goblin King ") ∧
    TrimSpace " Goblin King " = "Goblin King" ∧
    command (fun _ => 0) "ABCD" "U1" true renameMsg =
      some (StoreCall.RenameEntity "ABCD" "U1" (getStr renameMsg.Data "id")
        (TrimSpace " Goblin King ")) :=
  ⟨rfl, Or.inr (Or.inr ⟨"  ", rfl, by decide⟩),
    (((blank_name_or_tag_is_noop (recordingStore session) (fun _ => 0) "ABCD" "U1" true
      blankRenameMsg system).1 rfl).1 (Or.inr (Or.inr ⟨"  ", rfl, by decide⟩))).1,
    rfl, by decide,
    (((blank_name_or_tag_is_noop (recordingStore session) (fun _ => 0) "ABCD" "U1" true
      renameMsg system).1 rfl).2 " Goblin King " rfl (by decide)).1⟩

theorem decoded_message_is_broadcast_once_witness :
    (recordingStore session).GetGroup
      (applyCommand (recordingStore session)
        (command (fun _ => 0) "ABCD" "U2" false addMonsterMsg) system).store "ABCD"
      = some session ∧
    broadcasts (onMessage (recordingStore session) (fun _ => 0) "ABCD" "U2" false
      (some addMonsterMsg) system).trace = broadcasts system.trace + 1 :=
  ⟨by decide,
    ((decoded_message_is_broadcast_once (recordingStore session) (fun _ => 0) "ABCD" "U2" false
      addMonsterMsg system).1 session (by decide)).2.1⟩

theorem getInt_defaults_to_zero_witness :
    index numbers "hp" = some (Value.float64 (Float64.finite false 7 0)) ∧
    getInt (fun _ => 0) numbers "hp" = 7 ∧
    index numbers "bonus" = some (Value.string "3") ∧
    getInt (fun _ => 0) numbers "bonus" = 0 ∧
    index numbers "absent" = none ∧
    getInt (fun _ => 0) numbers "absent" = 0 ∧
    getInt (fun _ => 0) numbers "init" = -3 :=
  ⟨rfl,
    (getInt_defaults_to_zero (fun _ => 0) numbers "hp").2.2.2.2.2.1
      (Float64.finite false 7 0) 7 rfl (by decide) (by decide) (by decide),
    rfl,
    (getInt_defaults_to_zero (fun _ => 0) numbers "bonus").2.2.2.1 "3" rfl,
    rfl,
    (getInt_defaults_to_zero (fun _ => 0) numbers "absent").2.1 rfl,
    (getInt_defaults_to_zero (fun _ => 0) numbers "init").2.2.2.2.2.1
      (Float64.finite true 24 (-3)) (-3) rfl (by decide) (by decide) (by decide)⟩

end sample
